import Mathlib

/-!
Verification of the document-detection / perspective-rectification core of the
ai-name-card-scanner repository.

The embedding below translates, function by function, the relevant TypeScript
sources into Lean:

* `src/utils/perspectiveTransform.ts` — `solveLinearSystem`,
  `getPerspectiveTransform`, `mapPointInverse`, and the per-pixel body of
  `correctKeystone`;
* `src/unnamed/part_008` (card detection) — `detectEdges`,
  `findRectangularContours` (with its row/column line scans), `formRectangle`,
  `isValidBusinessCard`, `scoreContour`, `detectCardFallback`, and the
  contour-selection loop of `detectBusinessCard`;
* `src/components/EditCardForm.tsx` (inline image editor) — the manual
  brightness/contrast filter of `handleSave`, the crop move/resize updates of
  `handleMove`, and the keystone hit test of `handleStart`.

JavaScript numbers are modelled by `ℚ` (exact rational arithmetic); pixel
buffers (`Uint8ClampedArray`) by `ℕ`-valued functions; `Math.sqrt` by
`Real.sqrt` where the square root value itself matters.  `Math.round` (round
half toward +∞) is `jsRound`.  Array-returning code is embedded as `List`
values; code with no `throw` statement is embedded as a total function.
-/

namespace CardScanner

/-- A raster image: dimensions plus a flat RGBA8 buffer, indexed as
`data ((y * width + x) * 4 + channel)` exactly like the `ImageData.data`
accesses in the source.  Entries of a `Uint8ClampedArray` are naturals. -/
structure Img where
  width : ℕ
  height : ℕ
  data : ℕ → ℕ

/-- Four ordered corner points (TL, TR, BR, BL), the `[Point, Point, Point,
Point]` tuples of `perspectiveTransform.ts`. -/
structure Quad where
  p1 : ℚ × ℚ
  p2 : ℚ × ℚ
  p3 : ℚ × ℚ
  p4 : ℚ × ℚ

/-- JavaScript `Math.round`: round half toward positive infinity. -/
def jsRound (q : ℚ) : ℤ := ⌊q + 1 / 2⌋

/-- `mapPointInverse` from `perspectiveTransform.ts` (lines 183–214): the
edge-interpolation approximation of the inverse perspective map.
`u = x / (dst[1].x - dst[0].x)`, `v = y / (dst[3].y - dst[0].y)`, then
interpolate along the top and bottom edges of `src` and blend vertically. -/
def mapPointInverse (x y : ℚ) (src dst : Quad) : ℚ × ℚ :=
  let u := x / (dst.p2.1 - dst.p1.1)
  let v := y / (dst.p4.2 - dst.p1.2)
  let top := (src.p1.1 + u * (src.p2.1 - src.p1.1), src.p1.2 + u * (src.p2.2 - src.p1.2))
  let bottom := (src.p4.1 + u * (src.p3.1 - src.p4.1), src.p4.2 + u * (src.p3.2 - src.p4.2))
  (top.1 + v * (bottom.1 - top.1), top.2 + v * (bottom.2 - top.2))

/-- One destination pixel channel of `correctKeystone`
(`perspectiveTransform.ts`, lines 87–180).  The function computes the
bounding box of the corners, shifts the corners into it, builds the
axis-aligned destination rectangle, inverse-maps the destination pixel via
`mapPointInverse`, and bilinearly samples the four neighbouring source
pixels; destination pixels whose source point falls outside the image stay
at the zero `createImageData` initialisation. -/
def correctKeystonePixel (img : Img) (corners : Quad) (x y c : ℕ) : ℕ :=
  let minX := min (min corners.p1.1 corners.p2.1) (min corners.p3.1 corners.p4.1)
  let maxX := max (max corners.p1.1 corners.p2.1) (max corners.p3.1 corners.p4.1)
  let minY := min (min corners.p1.2 corners.p2.2) (min corners.p3.2 corners.p4.2)
  let maxY := max (max corners.p1.2 corners.p2.2) (max corners.p3.2 corners.p4.2)
  let width := maxX - minX
  let height := maxY - minY
  let dst : Quad := ⟨(0, 0), (width, 0), (width, height), (0, height)⟩
  let src : Quad :=
    ⟨(corners.p1.1 - minX, corners.p1.2 - minY), (corners.p2.1 - minX, corners.p2.2 - minY),
      (corners.p3.1 - minX, corners.p3.2 - minY), (corners.p4.1 - minX, corners.p4.2 - minY)⟩
  let sp := mapPointInverse (x : ℚ) (y : ℚ) src dst
  if 0 ≤ sp.1 ∧ sp.1 < (img.width : ℚ) ∧ 0 ≤ sp.2 ∧ sp.2 < (img.height : ℚ) then
    let x1 : ℤ := ⌊sp.1⌋
    let y1 : ℤ := ⌊sp.2⌋
    let x2 : ℤ := min (x1 + 1) ((img.width : ℤ) - 1)
    let y2 : ℤ := min (y1 + 1) ((img.height : ℤ) - 1)
    let fx : ℚ := sp.1 - (x1 : ℚ)
    let fy : ℚ := sp.2 - (y1 : ℚ)
    let q1 : ℚ := img.data ((y1 * (img.width : ℤ) + x1) * 4 + (c : ℤ)).toNat
    let q2 : ℚ := img.data ((y1 * (img.width : ℤ) + x2) * 4 + (c : ℤ)).toNat
    let q3 : ℚ := img.data ((y2 * (img.width : ℤ) + x1) * 4 + (c : ℤ)).toNat
    let q4 : ℚ := img.data ((y2 * (img.width : ℤ) + x2) * 4 + (c : ℤ)).toNat
    (jsRound (q1 * (1 - fx) * (1 - fy) + q2 * fx * (1 - fy) +
      q3 * (1 - fx) * fy + q4 * fx * fy)).toNat
  else 0

/-- The quadrilateral consisting of the image's own four corners, the
identity configuration of the round-trip property. -/
def identityQuad (img : Img) : Quad :=
  ⟨(0, 0), ((img.width : ℚ), 0), ((img.width : ℚ), (img.height : ℚ)), (0, (img.height : ℚ))⟩

theorem jsRound_natCast (n : ℕ) : jsRound (n : ℚ) = n := by
  unfold jsRound
  rw [Int.floor_eq_iff]
  constructor
  · push_cast; linarith
  · push_cast; linarith

/-- C7: Identity round-trip.  Rectifying with the quadrilateral equal to the
image's own four corners (whose bounding box is the same-size axis-aligned
destination rectangle built by `correctKeystone`) reproduces the original
raster exactly — in particular within any small per-pixel tolerance. -/
theorem correctKeystone_identity (img : Img) (hw : 0 < img.width) (hh : 0 < img.height)
    (x y c : ℕ) (hx : x < img.width) (hy : y < img.height) :
    correctKeystonePixel img (identityQuad img) x y c =
      img.data ((y * img.width + x) * 4 + c) := by
  have hw0 : (0 : ℚ) ≤ (img.width : ℚ) := by positivity
  have hh0 : (0 : ℚ) ≤ (img.height : ℚ) := by positivity
  have hwne : ((img.width : ℚ)) ≠ 0 := by
    exact_mod_cast hw.ne'
  have hhne : ((img.height : ℚ)) ≠ 0 := by
    exact_mod_cast hh.ne'
  unfold correctKeystonePixel identityQuad mapPointInverse
  simp only [min_self, max_self, min_eq_left hw0, min_eq_right hw0, max_eq_left hw0,
    max_eq_right hw0, min_eq_left hh0, min_eq_right hh0, max_eq_left hh0, max_eq_right hh0,
    sub_zero, sub_self, mul_zero, add_zero, zero_add, zero_sub, neg_zero]
  rw [div_mul_cancel₀ _ hwne, div_mul_cancel₀ _ hhne]
  have hxq : (0 : ℚ) ≤ (x : ℚ) := by positivity
  have hyq : (0 : ℚ) ≤ (y : ℚ) := by positivity
  have hxw : (x : ℚ) < (img.width : ℚ) := by exact_mod_cast hx
  have hyh : (y : ℚ) < (img.height : ℚ) := by exact_mod_cast hy
  rw [if_pos ⟨hxq, hxw, hyq, hyh⟩]
  simp only [Int.floor_natCast, Int.cast_natCast, sub_self, mul_zero, zero_mul, add_zero,
    mul_one, sub_zero]
  have hidx : ((y : ℤ) * (img.width : ℤ) + (x : ℤ)) * 4 + (c : ℤ) =
      (((y * img.width + x) * 4 + c : ℕ) : ℤ) := by push_cast; ring
  rw [hidx, Int.toNat_natCast, jsRound_natCast, Int.toNat_natCast]

/-- Witness for C7 at a concrete 2×2 image whose buffer is `fun i => i`. -/
theorem correctKeystone_identity_witness :
    0 < (Img.mk 2 2 (fun i => i)).width ∧ 0 < (Img.mk 2 2 (fun i => i)).height ∧
      1 < (Img.mk 2 2 (fun i => i)).width ∧ 1 < (Img.mk 2 2 (fun i => i)).height ∧
      correctKeystonePixel (Img.mk 2 2 (fun i => i)) (identityQuad (Img.mk 2 2 (fun i => i)))
        1 1 2 = (Img.mk 2 2 (fun i => i)).data ((1 * 2 + 1) * 4 + 2) :=
  ⟨by decide, by decide, by decide, by decide,
    correctKeystone_identity (Img.mk 2 2 (fun i => i)) (by decide) (by decide)
      1 1 2 (by decide) (by decide)⟩

/-! ## PerspectiveSolver: `solveLinearSystem` and `getPerspectiveTransform`

`solveLinearSystem` (`perspectiveTransform.ts`, lines 49–84) contains no
`throw` statement and no test of the pivot's magnitude against an epsilon:
it is a total function.  The embedding mirrors the three loops — pivot
search, elimination of the rows below the pivot (columns `j` from `i` to `n`
of each augmented row), and back substitution — with `ℚ` standing in for JS
numbers (for a zero pivot JS produces non-finite garbage values where `ℚ`
division yields `0`; in both semantics the function returns normally, which
is the only aspect the theorems below rely on). -/

/-- The pivot search of `solveLinearSystem`: starting from `maxRow = i`,
scan `k = i+1 .. n-1` and keep `k` whenever `|aug[k][i]| > |aug[maxRow][i]|`. -/
def pivotRow (aug : List (List ℚ)) (n i : ℕ) : ℕ :=
  (List.range' (i + 1) (n - (i + 1))).foldl
    (fun maxRow k =>
      if |((aug.getD k []).getD i 0)| > |((aug.getD maxRow []).getD i 0)| then k else maxRow) i

/-- Map a function receiving the element index over a list (structural
helper standing in for per-index array writes). -/
def mapWithIdx (f : ℕ → α → β) : ℕ → List α → List β
  | _, [] => []
  | i, a :: as => f i a :: mapWithIdx f (i + 1) as

/-- Swap rows `i` and `j` of the augmented matrix. -/
def swapRows (aug : List (List ℚ)) (i j : ℕ) : List (List ℚ) :=
  mapWithIdx (fun k row => if k = i then aug.getD j [] else if k = j then aug.getD i [] else row)
    0 aug

/-- The inner elimination: for every row `k > i`, subtract
`factor * aug[i][j]` from `aug[k][j]` for the columns `j ≥ i`, with
`factor = aug[k][i] / aug[i][i]` (no zero test on the pivot). -/
def eliminateBelow (aug : List (List ℚ)) (i : ℕ) : List (List ℚ) :=
  let pivot := aug.getD i []
  mapWithIdx (fun k row =>
    if i < k then
      let factor := row.getD i 0 / pivot.getD i 0
      mapWithIdx (fun j v => if i ≤ j then v - factor * pivot.getD j 0 else v) 0 row
    else row) 0 aug

/-- Forward elimination: for each `i`, select the partial pivot, swap it into
place and eliminate below. -/
def forwardEliminate (aug : List (List ℚ)) (n : ℕ) : List (List ℚ) :=
  (List.range n).foldl (fun a i => eliminateBelow (swapRows a i (pivotRow a n i)) i) aug

/-- Back substitution, building `[x i, x (i+1), …, x (n-1)]` for `i = n - k`:
`x[i] = (aug[i][n] - Σ_{j>i} aug[i][j]·x[j]) / aug[i][i]`. -/
def backSubstitute (aug : List (List ℚ)) (n : ℕ) : ℕ → List ℚ
  | 0 => []
  | k + 1 =>
    let i := n - (k + 1)
    let xs := backSubstitute aug n k
    let row := aug.getD i []
    let s := (List.range' (i + 1) (n - (i + 1))).foldl
      (fun acc j => acc - row.getD j 0 * xs.getD (j - (i + 1)) 0) (row.getD n 0)
    s / row.getD i 0 :: xs

/-- `solveLinearSystem` from `perspectiveTransform.ts`: augment `A` with `b`,
run Gaussian elimination with partial pivoting, then back-substitute.  The
source has no failure path whatsoever. -/
def solveLinearSystem (A : List (List ℚ)) (b : List ℚ) : List ℚ :=
  let n := A.length
  let augmented := (List.range n).map (fun i => A.getD i [] ++ [b.getD i 0])
  backSubstitute (forwardEliminate augmented n) n n

/-- The `Matrix` record of `perspectiveTransform.ts`. -/
structure PMatrix where
  a : ℚ
  b : ℚ
  c : ℚ
  d : ℚ
  e : ℚ
  f : ℚ
  g : ℚ
  h : ℚ
  i : ℚ

/-- The 8×8 coefficient matrix built by `getPerspectiveTransform`
(lines 25–34). -/
def perspectiveSystemA (src dst : Quad) : List (List ℚ) :=
  [[src.p1.1, src.p1.2, 1, 0, 0, 0, -dst.p1.1 * src.p1.1, -dst.p1.1 * src.p1.2],
   [0, 0, 0, src.p1.1, src.p1.2, 1, -dst.p1.2 * src.p1.1, -dst.p1.2 * src.p1.2],
   [src.p2.1, src.p2.2, 1, 0, 0, 0, -dst.p2.1 * src.p2.1, -dst.p2.1 * src.p2.2],
   [0, 0, 0, src.p2.1, src.p2.2, 1, -dst.p2.2 * src.p2.1, -dst.p2.2 * src.p2.2],
   [src.p3.1, src.p3.2, 1, 0, 0, 0, -dst.p3.1 * src.p3.1, -dst.p3.1 * src.p3.2],
   [0, 0, 0, src.p3.1, src.p3.2, 1, -dst.p3.2 * src.p3.1, -dst.p3.2 * src.p3.2],
   [src.p4.1, src.p4.2, 1, 0, 0, 0, -dst.p4.1 * src.p4.1, -dst.p4.1 * src.p4.2],
   [0, 0, 0, src.p4.1, src.p4.2, 1, -dst.p4.2 * src.p4.1, -dst.p4.2 * src.p4.2]]

/-- The right-hand side vector `b` of `getPerspectiveTransform` (line 36). -/
def perspectiveSystemB (dst : Quad) : List ℚ :=
  [dst.p1.1, dst.p1.2, dst.p2.1, dst.p2.2, dst.p3.1, dst.p3.2, dst.p4.1, dst.p4.2]

/-- `getPerspectiveTransform` (lines 15–46): solve the 8×8 system and pack
the 8 coefficients into a `Matrix` with `i` fixed at 1. -/
def getPerspectiveTransform (src dst : Quad) : PMatrix :=
  let x := solveLinearSystem (perspectiveSystemA src dst) (perspectiveSystemB dst)
  ⟨x.getD 0 0, x.getD 1 0, x.getD 2 0, x.getD 3 0, x.getD 4 0, x.getD 5 0,
    x.getD 6 0, x.getD 7 0, 1⟩

theorem backSubstitute_length (aug : List (List ℚ)) (n k : ℕ) :
    (backSubstitute aug n k).length = k := by
  induction k with
  | zero => rfl
  | succ k ih => simp [backSubstitute, ih]

/-- The Keystone Scenario-D quadrilateral: three of the four points coincide
at one location (here TL = TR = BR = (0,0)) and the fourth is distinct. -/
def degenerateSrc : Quad := ⟨(0, 0), (0, 0), (0, 0), (80, 60)⟩

/-- The axis-aligned destination rectangle for the bounding box of
`degenerateSrc`, as `correctKeystone` would build it. -/
def degenerateDst : Quad := ⟨(0, 0), (80, 0), (80, 60), (0, 60)⟩

/-- The augmented matrix `solveLinearSystem` starts from for the Scenario-D
system. -/
def degenerateAugmented : List (List ℚ) :=
  (List.range 8).map (fun i =>
    (perspectiveSystemA degenerateSrc degenerateDst).getD i [] ++
      [(perspectiveSystemB degenerateDst).getD i 0])

set_option maxRecDepth 8000 in
unseal Rat.mul Rat.inv Rat.add Rat.sub in
/-- C1, counterexample.  The claim asserts that `PerspectiveSolver` fails
with `SolverSingularity` whenever Gaussian elimination finds no pivot above
an epsilon, and exhibits the three-coincident-points quadrilateral as such a
case.  On that very input the elimination does encounter a pivot that is
exactly zero at step 1 (first conjunct — the state at that step is reached
through finite arithmetic only, so it is the same in JS);  yet the solver,
which contains no pivot test and no `throw`, simply keeps going and returns
its usual 8-entry coefficient array (second and third conjuncts): no
`SolverSingularity` failure exists anywhere in the code, and consequently no
fallback to a bounding-box crop is ever triggered by it. -/
theorem solveLinearSystem_no_singularity_failure :
    (let a1 := eliminateBelow (swapRows degenerateAugmented 0 (pivotRow degenerateAugmented 8 0)) 0
     ((swapRows a1 1 (pivotRow a1 8 1)).getD 1 []).getD 1 0 = 0) ∧
      (solveLinearSystem (perspectiveSystemA degenerateSrc degenerateDst)
        (perspectiveSystemB degenerateDst)).length = 8 ∧
      (getPerspectiveTransform degenerateSrc degenerateDst).i = 1 := by
  refine ⟨by decide, by decide, rfl⟩

/-- C1, amended.  `solveLinearSystem` performs no pivot-magnitude check and
has no failure path at all: for every system it returns one coefficient per
equation, and `getPerspectiveTransform` always returns a matrix (with its
ninth entry fixed at 1) — including for degenerate/collinear configurations,
where a zero pivot leads to meaningless division results rather than a
raised `SolverSingularity`.  Hence nothing is ever thrown to the commit
code, and its catch-branch fallback is unreachable via the solver. -/
theorem solveLinearSystem_total :
    (∀ (A : List (List ℚ)) (b : List ℚ), (solveLinearSystem A b).length = A.length) ∧
      ∀ src dst : Quad, (getPerspectiveTransform src dst).i = 1 := by
  constructor
  · intro A b
    simp [solveLinearSystem, backSubstitute_length]
  · intro src dst
    rfl

/-! ## Edge detection (`detectEdges`, `src/unnamed/part_008` lines 15–42) -/

/-- The horizontal Sobel kernel of `detectEdges`. -/
def sobelX : List (List ℤ) := [[-1, 0, 1], [-2, 0, 2], [-1, 0, 1]]

/-- The vertical Sobel kernel of `detectEdges`. -/
def sobelY : List (List ℤ) := [[-1, -2, -1], [0, 0, 0], [1, 2, 1]]

/-- The luma of a pixel: `(data[idx] + data[idx+1] + data[idx+2]) / 3` with
`idx = (yy * width + xx) * 4`. -/
noncomputable def luma (img : Img) (yy xx : ℤ) : ℝ :=
  let idx := ((yy * img.width + xx) * 4).toNat
  ((img.data idx + img.data (idx + 1) + img.data (idx + 2) : ℕ) : ℝ) / 3

/-- One Sobel convolution sum of `detectEdges`:
`Σ_{ky,kx ∈ {-1,0,1}} gray(y+ky, x+kx) · kernel[ky+1][kx+1]`. -/
noncomputable def sobelSum (kernel : List (List ℤ)) (img : Img) (y x : ℕ) : ℝ :=
  ([-1, 0, 1] : List ℤ).foldl (fun acc ky =>
    ([-1, 0, 1] : List ℤ).foldl (fun acc2 kx =>
      acc2 + luma img ((y : ℤ) + ky) ((x : ℤ) + kx) *
        (((kernel.getD (ky + 1).toNat []).getD (kx + 1).toNat 0 : ℤ) : ℝ)) acc) 0

/-- One entry of the gradient field: `sqrt (gx² + gy²)` for interior pixels
(the loops run `y = 1 .. height-2`, `x = 1 .. width-2`), `0` on the 1-pixel
border, which keeps its `Array(width).fill(0)` initialisation. -/
noncomputable def edgesEntry (img : Img) (y x : ℕ) : ℝ :=
  if 1 ≤ y ∧ y + 1 < img.height ∧ 1 ≤ x ∧ x + 1 < img.width then
    Real.sqrt (sobelSum sobelX img y x * sobelSum sobelX img y x +
      sobelSum sobelY img y x * sobelSum sobelY img y x)
  else 0

/-- `detectEdges`: the `height × width` gradient-magnitude field. -/
noncomputable def detectEdges (img : Img) : List (List ℝ) :=
  (List.range img.height).map (fun y => (List.range img.width).map (fun x => edgesEntry img y x))

/-! ## Line scanning (`findRectangularContours`, lines 45–127) -/

/-- A maximal run recorded by the row/column scans of
`findRectangularContours`: start index, end index and average strength. -/
structure ScanRun (α : Type) where
  start : ℕ
  stop : ℕ
  strength : α
  deriving DecidableEq, Repr

/-- The scanning loop body shared by the horizontal and the vertical passes
of `findRectangularContours`: walk the values with a current `lineStart`
(`none` encodes the source's `-1`) and accumulated `lineStrength`; on a
value above the threshold extend the run, otherwise flush it — provided its
length exceeds `minLen` — and reset.  Exactly as in the source, a run still
open when the values end is never flushed. -/
def scanLineAux {α : Type} [LinearOrderedField α] (t minLen : α) :
    List α → ℕ → Option ℕ → α → List (ScanRun α)
  | [], _, _, _ => []
  | v :: rest, x, start, strength =>
    if t < v then
      scanLineAux t minLen rest (x + 1) (some (start.getD x)) (strength + v)
    else
      match start with
      | some s =>
        if minLen < (x : α) - (s : α) then
          ⟨s, x - 1, strength / ((x : α) - (s : α))⟩ :: scanLineAux t minLen rest (x + 1) none 0
        else scanLineAux t minLen rest (x + 1) none 0
      | none => scanLineAux t minLen rest (x + 1) none 0

/-- Scan one line of values (one row or one column of the gradient field). -/
def scanLine {α : Type} [LinearOrderedField α] (t minLen : α) (vals : List α) :
    List (ScanRun α) :=
  scanLineAux t minLen vals 0 none 0

/-- A horizontal line record `{ y, x1, x2, strength }`. -/
structure HLine (α : Type) where
  y : ℕ
  x1 : ℕ
  x2 : ℕ
  strength : α
  deriving DecidableEq, Repr

/-- A vertical line record `{ x, y1, y2, strength }`. -/
structure VLine (α : Type) where
  x : ℕ
  y1 : ℕ
  y2 : ℕ
  strength : α
  deriving DecidableEq, Repr

/-- The horizontal pass (lines 54–76): for each row `y`, flush maximal runs
longer than `width * 0.1`. -/
def detectHorizontalLines {α : Type} [LinearOrderedField α] (edges : List (List α)) (t : α) :
    List (HLine α) :=
  let width := (edges.getD 0 []).length
  (List.range edges.length).flatMap (fun y =>
    (scanLine t ((width : α) * (1 / 10)) (edges.getD y [])).map
      (fun r => ⟨y, r.start, r.stop, r.strength⟩))

/-- The vertical pass (lines 78–100): for each column `x`, flush maximal
runs longer than `height * 0.1`; the column's values are `edges[y][x]` for
`y = 0 .. height-1`. -/
def detectVerticalLines {α : Type} [LinearOrderedField α] (edges : List (List α)) (t : α) :
    List (VLine α) :=
  let height := edges.length
  (List.range ((edges.getD 0 []).length)).flatMap (fun x =>
    (scanLine t ((height : α) * (1 / 10)) (edges.map (fun row => row.getD x 0))).map
      (fun r => ⟨x, r.start, r.stop, r.strength⟩))

/-- Stable insertion into a list sorted by strictly descending key — the
embedding of JavaScript's stable `Array.prototype.sort` with comparator
`(a, b) => b.strength - a.strength`. -/
def insertByKeyDesc {α β : Type} [LinearOrder α] (key : β → α) (a : β) : List β → List β
  | [] => [a]
  | b :: bs => if key a < key b then b :: insertByKeyDesc key a bs else a :: b :: bs

/-- Stable sort by descending key. -/
def sortByKeyDesc {α β : Type} [LinearOrder α] (key : β → α) : List β → List β
  | [] => []
  | b :: bs => insertByKeyDesc key b (sortByKeyDesc key bs)

/-- `formRectangle` (lines 129–153): outer extents of two horizontal and two
vertical lines; `null` when the extents are degenerate (`width < 50` or
`height < 30`), else the corner list `[TL, TR, BR, BL]`. -/
def formRectangle {α : Type} [LinearOrderedField α] (h1 h2 : HLine α) (v1 v2 : VLine α) :
    Option (List (α × α)) :=
  let top := (min h1.y h2.y : ℕ)
  let bottom := (max h1.y h2.y : ℕ)
  let left := (min v1.x v2.x : ℕ)
  let right := (max v1.x v2.x : ℕ)
  let width := (right : α) - (left : α)
  let height := (bottom : α) - (top : α)
  if width < 50 ∨ height < 30 then none
  else some [((left : α), (top : α)), ((right : α), (top : α)),
    ((right : α), (bottom : α)), ((left : α), (bottom : α))]

/-- `isValidBusinessCard` (lines 155–187): aspect ratio within `1.6 ± 0.5`
and area within `[0.1, 0.9]` of the image area (both checks inclusive). -/
def isValidBusinessCard {α : Type} [LinearOrderedField α] (corners : List (α × α))
    (imageWidth imageHeight : α) : Bool :=
  let tl := corners.getD 0 (0, 0)
  let tr := corners.getD 1 (0, 0)
  let br := corners.getD 2 (0, 0)
  let bl := corners.getD 3 (0, 0)
  let width := max (tr.1 - tl.1) (br.1 - bl.1)
  let height := max (bl.2 - tl.2) (br.2 - tr.2)
  let aspectRatio := width / height
  if 1 / 2 < |aspectRatio - 8 / 5| then false
  else if width * height < imageWidth * imageHeight * (1 / 10) then false
  else if imageWidth * imageHeight * (9 / 10) < width * height then false
  else true

/-- `findRectangularContours` (lines 45–127): scan, sort by strength
descending, then try all pairs among the ≤ 4 strongest horizontal and
vertical lines, keeping the rectangles that pass `formRectangle` and
`isValidBusinessCard`. -/
def findRectangularContours {α : Type} [LinearOrderedField α] (edges : List (List α)) (t : α) :
    List (List (α × α)) :=
  let height := edges.length
  let width := (edges.getD 0 []).length
  let horizontalLines := sortByKeyDesc HLine.strength (detectHorizontalLines edges t)
  let verticalLines := sortByKeyDesc VLine.strength (detectVerticalLines edges t)
  let mh := min 4 horizontalLines.length
  let mv := min 4 verticalLines.length
  (List.range mh).flatMap (fun i =>
    (List.range' (i + 1) (mh - (i + 1))).flatMap (fun j =>
      (List.range mv).flatMap (fun k =>
        (List.range' (k + 1) (mv - (k + 1))).filterMap (fun l =>
          match formRectangle (horizontalLines.getD i ⟨0, 0, 0, 0⟩)
              (horizontalLines.getD j ⟨0, 0, 0, 0⟩) (verticalLines.getD k ⟨0, 0, 0, 0⟩)
              (verticalLines.getD l ⟨0, 0, 0, 0⟩) with
          | some rect =>
            if isValidBusinessCard rect (width : α) (height : α) then some rect else none
          | none => none))))

/-! ## Scoring, fallback and selection (`scoreContour`, `detectCardFallback`,
`detectBusinessCard`, lines 190–294) -/

/-- The `cropArea` record `{ x, y, width, height }`. -/
structure CropArea (α : Type) where
  x : α
  y : α
  width : α
  height : α
  deriving DecidableEq, Repr

/-- The `DetectedCard` record: corners, confidence and bounding-box crop. -/
structure DetectedCard (α : Type) where
  corners : List (α × α)
  confidence : α
  cropArea : CropArea α
  deriving DecidableEq, Repr

/-- `scoreContour` (lines 242–272): weighted sum of the aspect score, the
size score (strict inequalities `areaRatio > 0.1 && areaRatio < 0.8`) and
the centredness score. -/
noncomputable def scoreContour (contour : List (ℝ × ℝ)) (imageWidth imageHeight : ℝ) : ℝ :=
  let tl := contour.getD 0 (0, 0)
  let tr := contour.getD 1 (0, 0)
  let br := contour.getD 2 (0, 0)
  let bl := contour.getD 3 (0, 0)
  let width := max (tr.1 - tl.1) (br.1 - bl.1)
  let height := max (bl.2 - tl.2) (br.2 - tr.2)
  let aspectRatio := width / height
  let aspectScore := 1 - |aspectRatio - 1.6| / 1.6
  let area := width * height
  let imageArea := imageWidth * imageHeight
  let areaRatio := area / imageArea
  let sizeScore : ℝ := if 0.1 < areaRatio ∧ areaRatio < 0.8 then 1 else 0.5
  let centerX := imageWidth / 2
  let centerY := imageHeight / 2
  let contourCenterX := (tl.1 + tr.1 + br.1 + bl.1) / 4
  let contourCenterY := (tl.2 + tr.2 + br.2 + bl.2) / 4
  let centerDistance := Real.sqrt ((contourCenterX - centerX) ^ 2 + (contourCenterY - centerY) ^ 2)
  let maxDistance := Real.sqrt (centerX * centerX + centerY * centerY)
  let positionScore := 1 - centerDistance / maxDistance
  aspectScore * 0.5 + sizeScore * 0.3 + positionScore * 0.2

/-- `detectCardFallback` (lines 274–294): the centred rectangle synthesized
when no contour was found — `cardWidth = min(imageWidth·0.8,
imageHeight·0.8·1.6)`, height keeping the 1.6 ratio, confidence 0.5. -/
noncomputable def detectCardFallback (imageWidth imageHeight : ℝ) : DetectedCard ℝ :=
  let cardWidth := min (imageWidth * 0.8) (imageHeight * 0.8 * 1.6)
  let cardHeight := cardWidth / 1.6
  let x := (imageWidth - cardWidth) / 2
  let y := (imageHeight - cardHeight) / 2
  ⟨[(x, y), (x + cardWidth, y), (x + cardWidth, y + cardHeight), (x, y + cardHeight)],
    0.5, ⟨x, y, cardWidth, cardHeight⟩⟩

/-- The selection loop of `detectBusinessCard` (lines 210–219): keep the
first contour whose score strictly exceeds the best so far. -/
noncomputable def pickBestAux (imageWidth imageHeight : ℝ) :
    List (List (ℝ × ℝ)) → List (ℝ × ℝ) × ℝ → List (ℝ × ℝ) × ℝ
  | [], best => best
  | c :: rest, best =>
    let score := scoreContour c imageWidth imageHeight
    if best.2 < score then pickBestAux imageWidth imageHeight rest (c, score)
    else pickBestAux imageWidth imageHeight rest best

/-- `detectBusinessCard` (lines 190–240) after `getImageData`: detect edges,
find contours, fall back when there are none, otherwise select the
best-scoring contour and derive its bounding-box crop area. -/
noncomputable def detectBusinessCardCore (img : Img) : DetectedCard ℝ :=
  let edges := detectEdges img
  let contours := findRectangularContours edges 50
  match contours with
  | [] => detectCardFallback (img.width : ℝ) (img.height : ℝ)
  | c0 :: rest =>
    let best := pickBestAux (img.width : ℝ) (img.height : ℝ) rest
      (c0, scoreContour c0 (img.width : ℝ) (img.height : ℝ))
    let tl := best.1.getD 0 (0, 0)
    let tr := best.1.getD 1 (0, 0)
    let br := best.1.getD 2 (0, 0)
    let bl := best.1.getD 3 (0, 0)
    ⟨best.1, best.2,
      ⟨min tl.1 bl.1, min tl.2 tr.2, max tr.1 br.1 - min tl.1 bl.1,
        max bl.2 br.2 - min tl.2 tr.2⟩⟩

theorem getD_map_range {β : Type} (f : ℕ → β) (n i : ℕ) (d : β) (h : i < n) :
    ((List.range n).map f).getD i d = f i := by
  rw [List.getD_eq_getElem?_getD, List.getElem?_map, List.getElem?_range h]
  rfl

/-- C8: for every input image the gradient field of `detectEdges` has the
input's dimensions, all its magnitudes are nonnegative, and every entry of
the 1-pixel border is exactly 0. -/
theorem detectEdges_dims_nonneg_border (img : Img) :
    (detectEdges img).length = img.height ∧
      (∀ row ∈ detectEdges img, row.length = img.width) ∧
      (∀ row ∈ detectEdges img, ∀ v ∈ row, 0 ≤ v) ∧
      (∀ y x : ℕ, y < img.height → x < img.width →
        (y = 0 ∨ y + 1 = img.height ∨ x = 0 ∨ x + 1 = img.width) →
        ((detectEdges img).getD y []).getD x 0 = 0) := by
  refine ⟨by simp [detectEdges], ?_, ?_, ?_⟩
  · intro row hrow
    simp only [detectEdges, List.mem_map, List.mem_range] at hrow
    obtain ⟨y, -, rfl⟩ := hrow
    simp
  · intro row hrow v hv
    simp only [detectEdges, List.mem_map, List.mem_range] at hrow
    obtain ⟨y, -, rfl⟩ := hrow
    simp only [List.mem_map, List.mem_range] at hv
    obtain ⟨x, -, rfl⟩ := hv
    unfold edgesEntry
    split
    · exact Real.sqrt_nonneg _
    · exact le_refl 0
  · intro y x hy hx hborder
    unfold detectEdges
    rw [getD_map_range _ _ _ _ hy, getD_map_range _ _ _ _ hx]
    unfold edgesEntry
    rw [if_neg]
    omega

/-- Witness for C8: a concrete 3×3 image with constant buffer 7; the
dimension fact and the zero top-left border entry, via the theorem. -/
theorem detectEdges_dims_nonneg_border_witness :
    (detectEdges (Img.mk 3 3 (fun _ => 7))).length = 3 ∧
      ((detectEdges (Img.mk 3 3 (fun _ => 7))).getD 0 []).getD 0 0 = 0 :=
  ⟨(detectEdges_dims_nonneg_border (Img.mk 3 3 (fun _ => 7))).1,
    (detectEdges_dims_nonneg_border (Img.mk 3 3 (fun _ => 7))).2.2.2 0 0
      (by decide) (by decide) (Or.inl rfl)⟩

section ScanProofs

variable {α : Type} [LinearOrderedField α]

/-- If the scanner is inside an active run started at `x1` and the remaining
values begin with `mid` (all above threshold) followed by a terminator `w`,
the run is flushed with the accumulated average strength. -/
theorem scanLineAux_flush (t minLen : α) (mid : List α) :
    ∀ (w : α) (rest : List α) (x x1 : ℕ) (strength : α),
      (∀ v ∈ mid, t < v) → ¬ t < w →
      minLen < ((x + mid.length : ℕ) : α) - (x1 : α) →
      ScanRun.mk x1 (x + mid.length - 1)
          ((strength + mid.sum) / (((x + mid.length : ℕ) : α) - (x1 : α))) ∈
        scanLineAux t minLen (mid ++ w :: rest) x (some x1) strength := by
  induction mid with
  | nil =>
    intro w rest x x1 strength _ hw hlen
    simp only [List.length_nil, Nat.add_zero] at hlen ⊢
    rw [List.nil_append]
    unfold scanLineAux
    rw [if_neg hw]
    simp only [List.sum_nil, add_zero]
    rw [if_pos hlen]
    exact List.mem_cons_self _ _
  | cons v mid ih =>
    intro w rest x x1 strength hmid hw hlen
    have hv : t < v := hmid v (List.mem_cons_self _ _)
    show _ ∈ scanLineAux t minLen (v :: (mid ++ w :: rest)) x (some x1) strength
    unfold scanLineAux
    rw [if_pos hv]
    have h1 : (x + 1) + mid.length = x + (v :: mid).length := by simp; omega
    have h2 := ih w rest (x + 1) x1 (strength + v)
      (fun u hu => hmid u (List.mem_cons_of_mem _ hu)) hw (by rw [h1]; exact hlen)
    rw [h1] at h2
    have h3 : strength + v + mid.sum = strength + (v :: mid).sum := by
      simp [add_assoc]
    rw [h3] at h2
    simpa using h2

/-- Completeness of the scan: any above-threshold run `mid` that is preceded
by values ending at or below the threshold (or starts the line) and is
terminated by an at-or-below-threshold value `w` is emitted, provided it is
long enough.  `pre` may itself contain earlier runs. -/
theorem scanLineAux_complete (t minLen : α) (pre : List α) :
    ∀ (mid : List α) (w : α) (rest : List α) (x : ℕ) (start : Option ℕ) (strength : α),
      (pre = [] → start = none ∧ strength = 0) → ¬ t < pre.getLastD t →
      (∀ v ∈ mid, t < v) → mid ≠ [] → ¬ t < w →
      minLen < (mid.length : α) →
      ScanRun.mk (x + pre.length) (x + pre.length + mid.length - 1)
          (mid.sum / (mid.length : α)) ∈
        scanLineAux t minLen (pre ++ mid ++ w :: rest) x start strength := by
  induction pre with
  | nil =>
    intro mid w rest x start strength hinit _ hmid hne hw hlen
    obtain ⟨rfl, rfl⟩ := hinit rfl
    obtain ⟨v, mid', rfl⟩ := List.exists_cons_of_ne_nil hne
    have hv : t < v := hmid v (List.mem_cons_self _ _)
    show _ ∈ scanLineAux t minLen (v :: (mid' ++ w :: rest)) x none 0
    unfold scanLineAux
    rw [if_pos hv]
    have key := scanLineAux_flush t minLen mid' w rest (x + 1) x (0 + v)
      (fun u hu => hmid u (List.mem_cons_of_mem _ hu)) hw ?_
    · have h1 : (x + 1) + mid'.length = x + (v :: mid').length := by simp; omega
      have h2 : (0 : α) + v + mid'.sum = (v :: mid').sum := by simp
      rw [h1, h2] at key
      have h3 : ((x + (v :: mid').length : ℕ) : α) - (x : α) = ((v :: mid').length : α) := by
        push_cast; ring
      rw [h3] at key
      simpa using key
    · have h3 : ((x + 1 + mid'.length : ℕ) : α) - (x : α) = ((v :: mid').length : α) := by
        push_cast
        simp
        ring
      rw [h3]
      exact hlen
  | cons p pre ih =>
    intro mid w rest x start strength hinit hlast hmid hne hw hlen
    have hlast' : ¬ t < pre.getLastD t := by
      cases pre with
      | nil => simp
      | cons q pre' =>
        rw [List.getLastD_cons, List.getLastD_cons] at hlast
        rw [List.getLastD_cons]
        exact hlast
    show _ ∈ scanLineAux t minLen (p :: (pre ++ mid ++ w :: rest)) x start strength
    unfold scanLineAux
    by_cases hpv : t < p
    · rw [if_pos hpv]
      have hpre : pre ≠ [] := by
        intro h
        subst h
        simp only [List.getLastD_cons, List.getLastD] at hlast
        exact hlast hpv
      have key := ih mid w rest (x + 1) (some (start.getD x)) (strength + p)
        (fun h => absurd h hpre) hlast' hmid hne hw hlen
      have h1 : x + 1 + pre.length = x + (p :: pre).length := by simp; omega
      rw [h1] at key
      exact key
    · rw [if_neg hpv]
      have key := ih mid w rest (x + 1) none 0 (fun _ => ⟨rfl, rfl⟩) hlast' hmid hne hw hlen
      have h1 : x + 1 + pre.length = x + (p :: pre).length := by simp; omega
      rw [h1] at key
      match start with
      | none => exact key
      | some s =>
        dsimp only
        split
        · exact List.mem_cons_of_mem _ key
        · exact key

/-- C9, amended.  For each row (resp. column) of the gradient field, every
maximal run of consecutive values strictly above the threshold whose length
strictly exceeds 10% of the width (resp. height) — and which is terminated
by a following at-or-below-threshold value before the end of the line — is
recorded with its row/column, start, end, and average strength.  (A run that
extends through the last value of the row or column is never flushed; see
the counterexample.)  The run is presented structurally: the line decomposes
as `pre ++ mid ++ w :: rest` with `mid` the run, `w` its terminator, and
`pre` ending at or below the threshold (or empty). -/
theorem runs_terminated_are_recorded (edges : List (List α)) (t : α) :
    (∀ (y : ℕ) (pre mid rest : List α) (w : α),
      y < edges.length →
      edges.getD y [] = pre ++ mid ++ w :: rest →
      (∀ v ∈ mid, t < v) → mid ≠ [] → ¬ t < w → ¬ t < pre.getLastD t →
      (((edges.getD 0 []).length : α)) * (1 / 10) < (mid.length : α) →
      HLine.mk y pre.length (pre.length + mid.length - 1) (mid.sum / (mid.length : α)) ∈
        detectHorizontalLines edges t) ∧
    (∀ (x : ℕ) (pre mid rest : List α) (w : α),
      x < (edges.getD 0 []).length →
      edges.map (fun row => row.getD x 0) = pre ++ mid ++ w :: rest →
      (∀ v ∈ mid, t < v) → mid ≠ [] → ¬ t < w → ¬ t < pre.getLastD t →
      ((edges.length : α)) * (1 / 10) < (mid.length : α) →
      VLine.mk x pre.length (pre.length + mid.length - 1) (mid.sum / (mid.length : α)) ∈
        detectVerticalLines edges t) := by
  constructor
  · intro y pre mid rest w hy hrow hmid hne hw hpre hlen
    unfold detectHorizontalLines
    rw [List.mem_flatMap]
    refine ⟨y, List.mem_range.mpr hy, ?_⟩
    rw [List.mem_map]
    refine ⟨ScanRun.mk pre.length (pre.length + mid.length - 1) (mid.sum / (mid.length : α)),
      ?_, rfl⟩
    have key := scanLineAux_complete t (((edges.getD 0 []).length : α) * (1 / 10)) pre mid w
      rest 0 none 0 (fun _ => ⟨rfl, rfl⟩) hpre hmid hne hw hlen
    rw [← hrow] at key
    simpa [scanLine] using key
  · intro x pre mid rest w hx hcol hmid hne hw hpre hlen
    unfold detectVerticalLines
    rw [List.mem_flatMap]
    refine ⟨x, List.mem_range.mpr hx, ?_⟩
    rw [List.mem_map]
    refine ⟨ScanRun.mk pre.length (pre.length + mid.length - 1) (mid.sum / (mid.length : α)),
      ?_, rfl⟩
    have key := scanLineAux_complete t ((edges.length : α) * (1 / 10)) pre mid w
      rest 0 none 0 (fun _ => ⟨rfl, rfl⟩) hpre hmid hne hw hlen
    rw [← hcol] at key
    simpa [scanLine] using key

end ScanProofs

unseal Rat.mul Rat.inv Rat.add Rat.sub in
/-- Witness for C9 at concrete rational gradient fields: a single row
`[100 × 12, 0]` (width 13) yields the horizontal line record
`(y=0, 0..11, avg 100)`, and the transposed field yields the corresponding
vertical record. -/
theorem runs_terminated_are_recorded_witness :
    (0 < ([List.replicate 12 (100 : ℚ) ++ [0]] : List (List ℚ)).length ∧
      HLine.mk 0 0 11 ((List.replicate 12 (100 : ℚ)).sum / 12) ∈
        detectHorizontalLines [List.replicate 12 (100 : ℚ) ++ [0]] 50) ∧
    (0 < ((List.replicate 12 [(100 : ℚ)] ++ [[0]]).getD 0 []).length ∧
      VLine.mk 0 0 11 ((List.replicate 12 (100 : ℚ)).sum / 12) ∈
        detectVerticalLines (List.replicate 12 [(100 : ℚ)] ++ [[0]]) 50) := by
  constructor
  · refine ⟨by decide, ?_⟩
    have h := (runs_terminated_are_recorded [List.replicate 12 (100 : ℚ) ++ [0]] 50).1
      0 [] (List.replicate 12 (100 : ℚ)) [] 0 (by decide) (by decide)
      (by intro v hv; rw [List.eq_of_mem_replicate hv]; norm_num) (by decide)
      (by norm_num) (by simp) (by decide)
    simpa using h
  · refine ⟨by decide, ?_⟩
    have h := (runs_terminated_are_recorded (List.replicate 12 [(100 : ℚ)] ++ [[0]]) 50).2
      0 [] (List.replicate 12 (100 : ℚ)) [] 0 (by decide) (by decide)
      (by intro v hv; rw [List.eq_of_mem_replicate hv]; norm_num) (by decide)
      (by norm_num) (by simp) (by decide)
    simpa using h

unseal Rat.mul Rat.inv Rat.add Rat.sub in
/-- C9, counterexample.  The claim demands that a qualifying run extending
to the last pixel of the row (resp. column) also be recorded.  A 1×12 field
of constant 100 (threshold 50: the full row is a maximal run of length 12 >
1.2 reaching the last pixel) produces no horizontal line at all — the loop
ends without flushing the open run — and the transposed 12×1 field likewise
produces no vertical line. -/
theorem trailing_run_never_recorded :
    detectHorizontalLines [List.replicate 12 (100 : ℚ)] 50 = [] ∧
      detectVerticalLines (List.replicate 12 [(100 : ℚ)]) 50 = [] := by
  constructor
  · decide
  · decide

/-- C10: every rectangle candidate produced by `findRectangularContours`
(and hence every rectangle handed to `scoreContour`) is axis-aligned with
corners in the order [TL, TR, BR, BL], has width ≥ 50 and height ≥ 30,
aspect ratio within `1.6 ± 0.5` inclusive, and area between 0.1 and 0.9 of
the image area inclusive. -/
theorem contours_are_valid_rects {α : Type} [LinearOrderedField α] (edges : List (List α))
    (t : α) (rect : List (α × α)) (h : rect ∈ findRectangularContours edges t) :
    ∃ left right top bottom : ℕ,
      left ≤ right ∧ top ≤ bottom ∧
      rect = [((left : α), (top : α)), ((right : α), (top : α)),
        ((right : α), (bottom : α)), ((left : α), (bottom : α))] ∧
      (50 : α) ≤ (right : α) - (left : α) ∧ (30 : α) ≤ (bottom : α) - (top : α) ∧
      |((right : α) - (left : α)) / ((bottom : α) - (top : α)) - 8 / 5| ≤ 1 / 2 ∧
      ((edges.getD 0 []).length : α) * (edges.length : α) * (1 / 10) ≤
        ((right : α) - (left : α)) * ((bottom : α) - (top : α)) ∧
      ((right : α) - (left : α)) * ((bottom : α) - (top : α)) ≤
        ((edges.getD 0 []).length : α) * (edges.length : α) * (9 / 10) := by
  unfold findRectangularContours at h
  rw [List.mem_flatMap] at h
  obtain ⟨i, -, h⟩ := h
  rw [List.mem_flatMap] at h
  obtain ⟨j, -, h⟩ := h
  rw [List.mem_flatMap] at h
  obtain ⟨k, -, h⟩ := h
  rw [List.mem_filterMap] at h
  obtain ⟨l, -, hfl⟩ := h
  set hl1 := (sortByKeyDesc HLine.strength (detectHorizontalLines edges t)).getD i ⟨0, 0, 0, 0⟩
    with hhl1
  set hl2 := (sortByKeyDesc HLine.strength (detectHorizontalLines edges t)).getD j ⟨0, 0, 0, 0⟩
    with hhl2
  set vl1 := (sortByKeyDesc VLine.strength (detectVerticalLines edges t)).getD k ⟨0, 0, 0, 0⟩
    with hvl1
  set vl2 := (sortByKeyDesc VLine.strength (detectVerticalLines edges t)).getD l ⟨0, 0, 0, 0⟩
    with hvl2
  rcases hform : formRectangle hl1 hl2 vl1 vl2 with - | r0
  · rw [hform] at hfl
    simp at hfl
  · rw [hform] at hfl
    dsimp only at hfl
    rcases hvb : isValidBusinessCard r0 ((edges.getD 0 []).length : α) (edges.length : α) with - | -
    · rw [hvb] at hfl
      simp at hfl
    · rw [hvb] at hfl
      simp only [if_true, Option.some_inj] at hfl
      subst hfl
      simp only [formRectangle] at hform
      rw [ite_eq_iff] at hform
      rcases hform with ⟨-, habs⟩ | ⟨hsize, hlist⟩
      · exact absurd habs (by simp)
      · rw [Option.some_inj] at hlist
        subst hlist
        push_neg at hsize
        obtain ⟨hw50, hh30⟩ := hsize
        simp only [isValidBusinessCard, List.getD_cons_zero, List.getD_cons_succ,
          max_self] at hvb
        split at hvb
        · exact absurd hvb (by simp)
        · next hc1 =>
          split at hvb
          · exact absurd hvb (by simp)
          · next hc2 =>
            split at hvb
            · exact absurd hvb (by simp)
            · next hc3 =>
              exact ⟨min vl1.x vl2.x, max vl1.x vl2.x, min hl1.y hl2.y, max hl1.y hl2.y,
                min_le_max, min_le_max, rfl, hw50, hh30, not_lt.mp hc1,
                not_lt.mp hc2, not_lt.mp hc3⟩

/-- A 58-wide row tracing a card's top or bottom edge (values above the
threshold at x = 3..55). -/
def lineRow : List ℚ := List.replicate 3 0 ++ List.replicate 53 100 ++ List.replicate 2 0

/-- A 58-wide row crossing only the card's left and right edges
(x = 3 and x = 55). -/
def midRow : List ℚ :=
  List.replicate 3 0 ++ [100] ++ List.replicate 51 0 ++ [100] ++ List.replicate 2 0

/-- An all-zero 58-wide row. -/
def zeroRow : List ℚ := List.replicate 58 0

/-- A concrete 58×34 gradient field containing one card-shaped rectangle
outline with corners (3,2)–(55,32). -/
def testGrid : List (List ℚ) :=
  [zeroRow, zeroRow, lineRow] ++ List.replicate 29 midRow ++ [lineRow, zeroRow]

set_option maxRecDepth 100000 in
unseal Rat.mul Rat.inv Rat.add Rat.sub in
/-- Witness for C10: the rectangle detected on `testGrid` is a member of the
contour list, and the theorem yields its shape and validity bounds. -/
theorem contours_are_valid_rects_witness :
    ([((3 : ℚ), (2 : ℚ)), (55, 2), (55, 32), (3, 32)] ∈ findRectangularContours testGrid 50) ∧
      ∃ left right top bottom : ℕ,
        left ≤ right ∧ top ≤ bottom ∧
        [((3 : ℚ), (2 : ℚ)), (55, 2), (55, 32), (3, 32)] =
          [((left : ℚ), (top : ℚ)), ((right : ℚ), (top : ℚ)),
            ((right : ℚ), (bottom : ℚ)), ((left : ℚ), (bottom : ℚ))] ∧
        (50 : ℚ) ≤ (right : ℚ) - (left : ℚ) ∧ (30 : ℚ) ≤ (bottom : ℚ) - (top : ℚ) ∧
        |((right : ℚ) - (left : ℚ)) / ((bottom : ℚ) - (top : ℚ)) - 8 / 5| ≤ 1 / 2 ∧
        ((testGrid.getD 0 []).length : ℚ) * (testGrid.length : ℚ) * (1 / 10) ≤
          ((right : ℚ) - (left : ℚ)) * ((bottom : ℚ) - (top : ℚ)) ∧
        ((right : ℚ) - (left : ℚ)) * ((bottom : ℚ) - (top : ℚ)) ≤
          ((testGrid.getD 0 []).length : ℚ) * (testGrid.length : ℚ) * (9 / 10) :=
  ⟨by decide, contours_are_valid_rects testGrid 50 _ (by decide)⟩

/-- C3, amended.  Whenever detection produces zero candidate rectangles,
`detectBusinessCard` synthesizes the fallback `DetectedCard`: a rectangle
centred in the image, of width `min(imageWidth·0.8, imageHeight·0.8·1.6)` —
i.e. 80% (not 90%) of the smaller scaled dimension — maintaining the 1.6
aspect ratio, with confidence exactly 0.5 and corners matching the crop
rectangle. -/
theorem detect_empty_contours_fallback (img : Img)
    (h : findRectangularContours (detectEdges img) (50 : ℝ) = []) :
    detectBusinessCardCore img = detectCardFallback (img.width : ℝ) (img.height : ℝ) ∧
      (detectBusinessCardCore img).confidence = 0.5 ∧
      (detectBusinessCardCore img).cropArea.width =
        min ((img.width : ℝ) * 0.8) ((img.height : ℝ) * 0.8 * 1.6) ∧
      (detectBusinessCardCore img).cropArea.height =
        (detectBusinessCardCore img).cropArea.width / 1.6 ∧
      (detectBusinessCardCore img).cropArea.x =
        ((img.width : ℝ) - (detectBusinessCardCore img).cropArea.width) / 2 ∧
      (detectBusinessCardCore img).cropArea.y =
        ((img.height : ℝ) - (detectBusinessCardCore img).cropArea.height) / 2 ∧
      (detectBusinessCardCore img).corners =
        [((detectBusinessCardCore img).cropArea.x, (detectBusinessCardCore img).cropArea.y),
          ((detectBusinessCardCore img).cropArea.x + (detectBusinessCardCore img).cropArea.width,
            (detectBusinessCardCore img).cropArea.y),
          ((detectBusinessCardCore img).cropArea.x + (detectBusinessCardCore img).cropArea.width,
            (detectBusinessCardCore img).cropArea.y + (detectBusinessCardCore img).cropArea.height),
          ((detectBusinessCardCore img).cropArea.x,
            (detectBusinessCardCore img).cropArea.y +
              (detectBusinessCardCore img).cropArea.height)] := by
  have hcore : detectBusinessCardCore img =
      detectCardFallback (img.width : ℝ) (img.height : ℝ) := by
    simp only [detectBusinessCardCore, h]
  rw [hcore]
  refine ⟨rfl, rfl, rfl, rfl, rfl, rfl, rfl⟩

/-- C3, counterexample.  On a 100×100 image the fallback card width is
`min(100·0.8, 100·0.8·1.6) = 80` — 80% of the smaller scaled dimension —
whereas the claim's 90% sizing would require 90. -/
theorem fallback_is_80_percent :
    (detectCardFallback 100 100).cropArea.width = 80 ∧
      (detectCardFallback 100 100).cropArea.width ≠ (9 / 10) * min (100 : ℝ) (100 * 1.6) := by
  have h : (detectCardFallback 100 100).cropArea.width = 80 := by
    show min ((100 : ℝ) * 0.8) ((100 : ℝ) * 0.8 * 1.6) = 80
    rw [min_eq_left (by norm_num)]
    norm_num
  refine ⟨h, ?_⟩
  rw [h, min_eq_left (by norm_num)]
  norm_num

/-- The contour list of a 1×1 black image is empty: its gradient field is a
single zero border pixel, so no line run is ever above the threshold. -/
theorem contours_unit_empty :
    findRectangularContours (detectEdges (Img.mk 1 1 (fun _ => 0))) (50 : ℝ) = [] := by
  have hrange : List.range 1 = [0] := rfl
  have h1 : detectEdges (Img.mk 1 1 (fun _ => 0)) = [[0]] := by
    unfold detectEdges
    rw [show (Img.mk 1 1 (fun _ => 0)).height = 1 from rfl,
      show (Img.mk 1 1 (fun _ => 0)).width = 1 from rfl, hrange]
    simp only [List.map_cons, List.map_nil]
    rw [show edgesEntry (Img.mk 1 1 (fun _ => 0)) 0 0 = 0 by
      unfold edgesEntry; rw [if_neg (by omega)]]
  rw [h1]
  have hscan : ∀ minLen : ℝ, scanLineAux (50 : ℝ) minLen [(0 : ℝ)] 0 none 0 = [] := by
    intro minLen
    unfold scanLineAux
    rw [if_neg (by norm_num)]
    rfl
  have hH : detectHorizontalLines ([[(0 : ℝ)]]) 50 = [] := by
    unfold detectHorizontalLines scanLine
    simp only [List.length_cons, List.length_nil, List.getD_cons_zero, Nat.zero_add, hrange,
      List.flatMap_cons, List.flatMap_nil, List.append_nil, hscan, List.map_nil]
  have hV : detectVerticalLines ([[(0 : ℝ)]]) 50 = [] := by
    unfold detectVerticalLines scanLine
    simp only [List.length_cons, List.length_nil, List.getD_cons_zero, Nat.zero_add, hrange,
      List.flatMap_cons, List.flatMap_nil, List.append_nil, List.map_cons, List.map_nil,
      hscan]
  unfold findRectangularContours
  rw [hH, hV]
  rfl

/-- Witness for C3: the 1×1 black image produces no contours, and the
detection result collapses to the fallback card via the theorem. -/
theorem detect_empty_contours_fallback_witness :
    findRectangularContours (detectEdges (Img.mk 1 1 (fun _ => 0))) (50 : ℝ) = [] ∧
      detectBusinessCardCore (Img.mk 1 1 (fun _ => 0)) =
        detectCardFallback ((Img.mk 1 1 (fun _ => 0)).width : ℝ)
          ((Img.mk 1 1 (fun _ => 0)).height : ℝ) :=
  ⟨contours_unit_empty,
    (detect_empty_contours_fallback (Img.mk 1 1 (fun _ => 0)) contours_unit_empty).1⟩

theorem pickBestAux_spec (imageW imageH : ℝ) :
    ∀ (cs : List (List (ℝ × ℝ))) (best : List (ℝ × ℝ) × ℝ),
      (best.2 = scoreContour best.1 imageW imageH →
        (pickBestAux imageW imageH cs best).2 =
          scoreContour (pickBestAux imageW imageH cs best).1 imageW imageH) ∧
      ((pickBestAux imageW imageH cs best).1 = best.1 ∨
        (pickBestAux imageW imageH cs best).1 ∈ cs) ∧
      best.2 ≤ (pickBestAux imageW imageH cs best).2 ∧
      ∀ c ∈ cs, scoreContour c imageW imageH ≤ (pickBestAux imageW imageH cs best).2 := by
  intro cs
  induction cs with
  | nil =>
    intro best
    exact ⟨fun h => h, Or.inl rfl, le_refl _, by simp⟩
  | cons c rest ih =>
    intro best
    show (_ → (pickBestAux imageW imageH (c :: rest) best).2 = _) ∧ _
    unfold pickBestAux
    by_cases hlt : best.2 < scoreContour c imageW imageH
    · rw [if_pos hlt]
      obtain ⟨ih1, ih2, ih3, ih4⟩ := ih (c, scoreContour c imageW imageH)
      refine ⟨fun _ => ih1 rfl, ?_, le_trans (le_of_lt hlt) ih3, ?_⟩
      · rcases ih2 with h | h
        · exact Or.inr (h ▸ List.mem_cons_self _ _)
        · exact Or.inr (List.mem_cons_of_mem _ h)
      · intro d hd
        rcases List.mem_cons.mp hd with rfl | hd'
        · exact ih3
        · exact ih4 d hd'
    · rw [if_neg hlt]
      obtain ⟨ih1, ih2, ih3, ih4⟩ := ih best
      refine ⟨ih1, ?_, ih3, ?_⟩
      · rcases ih2 with h | h
        · exact Or.inl h
        · exact Or.inr (List.mem_cons_of_mem _ h)
      · intro d hd
        rcases List.mem_cons.mp hd with rfl | hd'
        · exact le_trans (not_lt.mp hlt) ih3
        · exact ih4 d hd'

/-- C4, amended.  (1) For an axis-aligned candidate rectangle
`[TL, TR, BR, BL]` with corners `(l,t) … (l,b)`, `scoreContour` returns
`0.5·aspectScore + 0.3·sizeScore + 0.2·positionScore` with
`aspectScore = 1 − |w/h − 1.6|/1.6`, `positionScore = 1 − d` (`d` the
centroid distance from the image centre normalized by the half-diagonal),
and `sizeScore = 1` exactly when `0.1·A < a < 0.8·A` with both bounds
STRICT (not inclusive), else `0.5`.  (2) The selection loop of
`detectBusinessCard` picks a maximum-confidence candidate: its result is one
of the candidates, its confidence equals that candidate's score, and no
candidate scores higher. -/
theorem scoreContour_formula_and_max :
    (∀ l r t b imageW imageH : ℝ,
      scoreContour [(l, t), (r, t), (r, b), (l, b)] imageW imageH =
        (1 - |(r - l) / (b - t) - 1.6| / 1.6) * 0.5 +
        (if 0.1 < (r - l) * (b - t) / (imageW * imageH) ∧
            (r - l) * (b - t) / (imageW * imageH) < 0.8 then (1 : ℝ) else 0.5) * 0.3 +
        (1 - Real.sqrt (((l + r) / 2 - imageW / 2) ^ 2 + ((t + b) / 2 - imageH / 2) ^ 2) /
          Real.sqrt (imageW / 2 * (imageW / 2) + imageH / 2 * (imageH / 2))) * 0.2) ∧
    (∀ (c0 : List (ℝ × ℝ)) (rest : List (List (ℝ × ℝ))) (imageW imageH : ℝ),
      ((pickBestAux imageW imageH rest (c0, scoreContour c0 imageW imageH)).1 = c0 ∨
        (pickBestAux imageW imageH rest (c0, scoreContour c0 imageW imageH)).1 ∈ rest) ∧
      (pickBestAux imageW imageH rest (c0, scoreContour c0 imageW imageH)).2 =
        scoreContour (pickBestAux imageW imageH rest
          (c0, scoreContour c0 imageW imageH)).1 imageW imageH ∧
      ∀ c ∈ c0 :: rest, scoreContour c imageW imageH ≤
        (pickBestAux imageW imageH rest (c0, scoreContour c0 imageW imageH)).2) := by
  constructor
  · intro l r t b imageW imageH
    simp only [scoreContour, List.getD_cons_zero, List.getD_cons_succ, max_self]
    have h1 : (l + r + r + l) / 4 = (l + r) / 2 := by ring
    have h2 : (t + t + b + b) / 4 = (t + b) / 2 := by ring
    rw [h1, h2]
  · intro c0 rest imageW imageH
    obtain ⟨h1, h2, h3, h4⟩ := pickBestAux_spec imageW imageH rest
      (c0, scoreContour c0 imageW imageH)
    refine ⟨h2, h1 rfl, ?_⟩
    intro c hc
    rcases List.mem_cons.mp hc with rfl | hc'
    · exact h3
    · exact h4 c hc'

/-- C4, counterexample.  A centred 40×25 rectangle in a 100×100 image has
area `1000 = 0.1 · 10000` exactly; the claim's inclusive size bound would
give `sizeScore = 1` and confidence `0.95`, but the code's strict comparison
`areaRatio > 0.1` yields `sizeScore = 0.5` and confidence `0.85`. -/
theorem scoreContour_endpoint_strict :
    scoreContour [((30 : ℝ), (37.5 : ℝ)), (70, 37.5), (70, 62.5), (30, 62.5)] 100 100 =
      0.85 ∧ (0.85 : ℝ) ≠ 1 * 0.5 + 1 * 0.3 + 1 * 0.2 := by
  constructor
  · simp only [scoreContour, List.getD_cons_zero, List.getD_cons_succ, max_self]
    norm_num
  · norm_num

/-- Witness for C4: part (2) applied to the singleton candidate list holding
the concrete rectangle of the counterexample; the membership hypothesis is
discharged concretely. -/
theorem scoreContour_formula_and_max_witness :
    ([((30 : ℝ), (37.5 : ℝ)), (70, 37.5), (70, 62.5), (30, 62.5)] ∈
      ([[((30 : ℝ), (37.5 : ℝ)), (70, 37.5), (70, 62.5), (30, 62.5)]] :
        List (List (ℝ × ℝ)))) ∧
      scoreContour [((30 : ℝ), (37.5 : ℝ)), (70, 37.5), (70, 62.5), (30, 62.5)] 100 100 ≤
        (pickBestAux 100 100 []
          ([((30 : ℝ), (37.5 : ℝ)), (70, 37.5), (70, 62.5), (30, 62.5)],
            scoreContour [((30 : ℝ), (37.5 : ℝ)), (70, 37.5), (70, 62.5), (30, 62.5)]
              100 100)).2 :=
  ⟨List.mem_cons_self _ _,
    (scoreContour_formula_and_max.2
      [((30 : ℝ), (37.5 : ℝ)), (70, 37.5), (70, 62.5), (30, 62.5)] [] 100 100).2.2
      _ (List.mem_cons_self _ _)⟩

/-! ## Enhancement (`EditCardForm.tsx`, `handleSave` lines 1037–1067 and
`applyImageFilters` lines 522–559)

The manual brightness/contrast filter runs on the committed canvas *before*
the keystone/crop mode branch of `handleSave`, so it is applied identically
in every mode.  A store into a `Uint8ClampedArray` rounds to the nearest
integer with ties to even after the explicit clamp. -/

/-- `Uint8ClampedArray` storage rounding: nearest integer, ties to even
(applied to already-clamped values). -/
def clampedRound (q : ℚ) : ℕ :=
  let f := ⌊q⌋
  if q - f < 1 / 2 then f.toNat
  else if 1 / 2 < q - f then (f + 1).toNat
  else if f % 2 = 0 then f.toNat else (f + 1).toNat

/-- One colour channel of the filter: add `brightnessFactor · 255`
(`brightnessFactor = (brightness − 100)/100`), then apply contrast
`(r − 128) · contrastFactor + 128` (`contrastFactor = contrast/100`), then
clamp to `[0, 255]` via `Math.max(0, Math.min(255, r))`. -/
def enhanceChannel (brightness contrast : ℚ) (v : ℚ) : ℚ :=
  let brightnessFactor := (brightness - 100) / 100
  let contrastFactor := contrast / 100
  let r := v + brightnessFactor * 255
  let r2 := (r - 128) * contrastFactor + 128
  max 0 (min 255 r2)

/-- The filter block of `handleSave`: skipped entirely when
`brightness === 100 && contrast === 100`; otherwise every buffer index that
is not an alpha index (`i % 4 === 3`) is rewritten with the enhanced,
clamped, stored value.  Alpha bytes are never touched. -/
def applyImageFilters (brightness contrast : ℚ) (len : ℕ) (data : ℕ → ℕ) : ℕ → ℕ :=
  if brightness = 100 ∧ contrast = 100 then data
  else fun i =>
    if i < len ∧ i % 4 ≠ 3 then clampedRound (enhanceChannel brightness contrast (data i))
    else data i

theorem clampedRound_natCast (n : ℕ) : clampedRound (n : ℚ) = n := by
  unfold clampedRound
  rw [Int.floor_natCast]
  rw [if_pos (by push_cast; norm_num)]
  exact Int.toNat_natCast n

/-- The uniform gray(128,128,128) RGBA buffer with opaque alpha. -/
def grayData : ℕ → ℕ := fun j => if j % 4 = 3 then 255 else 128

/-- C2: the enhancement is the pure per-pixel brightness-then-contrast
transform of the claim — each colour channel becomes
`clamp(((v + (b−100)/100·255) − 128)·(c/100) + 128)` (then stored through the
clamped-array rounding), alpha bytes are untouched — and on the uniform
gray(128) 10×10 image with brightness 150% and contrast 100% every colour
channel of every pixel becomes 255. -/
theorem applyImageFilters_formula_and_scenarioB :
    (∀ (b c : ℚ) (len : ℕ) (data : ℕ → ℕ), (∀ j, data j ≤ 255) → ∀ i, i < len →
      applyImageFilters b c len data i =
        if i % 4 = 3 then data i
        else clampedRound (max 0 (min 255
          (((data i : ℚ) + (b - 100) / 100 * 255 - 128) * (c / 100) + 128)))) ∧
    (∀ i, i < 400 → i % 4 ≠ 3 → applyImageFilters 150 100 400 grayData i = 255) ∧
    (∀ i, i < 400 → i % 4 = 3 → applyImageFilters 150 100 400 grayData i = grayData i) := by
  refine ⟨?_, ?_, ?_⟩
  · intro b c len data hdata i hi
    unfold applyImageFilters
    split
    · next hbc =>
      obtain ⟨rfl, rfl⟩ := hbc
      split
      · rfl
      · have harg : (((data i : ℚ) + (100 - 100) / 100 * 255 - 128) * (100 / 100) + 128) =
            (data i : ℚ) := by ring
        rw [harg]
        have hmin : min (255 : ℚ) (data i) = (data i : ℚ) := by
          rw [min_eq_right]
          exact_mod_cast hdata i
        have hmax : max (0 : ℚ) (data i) = (data i : ℚ) := by
          rw [max_eq_right]
          positivity
        rw [hmin, hmax, clampedRound_natCast]
    · next hbc =>
      dsimp only
      by_cases h3 : i % 4 = 3
      · rw [if_neg (by omega), if_pos h3]
      · rw [if_pos ⟨hi, h3⟩, if_neg h3]
        rfl
  · intro i hi h3
    unfold applyImageFilters
    rw [if_neg (by norm_num)]
    rw [if_pos ⟨hi, h3⟩]
    have hgray : grayData i = 128 := by
      unfold grayData
      rw [if_neg h3]
    rw [hgray]
    have henh : enhanceChannel 150 100 ((128 : ℕ) : ℚ) = ((255 : ℕ) : ℚ) := by
      unfold enhanceChannel
      push_cast
      rw [show ((128 : ℚ) + (150 - 100) / 100 * 255 - 128) * (100 / 100) + 128 =
        511 / 2 by ring]
      rw [min_eq_left (by norm_num), max_eq_right (by norm_num)]
    rw [henh, clampedRound_natCast]
  · intro i hi h3
    unfold applyImageFilters
    rw [if_neg (by norm_num)]
    rw [if_neg (by omega)]

/-- Witness for C2: the Scenario-B conjunct applied at buffer index 0 of the
uniform gray image, and the alpha conjunct at index 3. -/
theorem applyImageFilters_formula_and_scenarioB_witness :
    (0 : ℕ) < 400 ∧ (0 : ℕ) % 4 ≠ 3 ∧ (3 : ℕ) < 400 ∧ (3 : ℕ) % 4 = 3 ∧
      applyImageFilters 150 100 400 grayData 0 = 255 ∧
      applyImageFilters 150 100 400 grayData 3 = grayData 3 :=
  ⟨by decide, by decide, by decide, by decide,
    applyImageFilters_formula_and_scenarioB.2.1 0 (by decide) (by decide),
    applyImageFilters_formula_and_scenarioB.2.2 3 (by decide) (by decide)⟩

/-! ## Crop move/resize updates (`EditCardForm.tsx`, `handleMove`
lines 935–979) -/

/-- The `cropDragMode === 'move'` branch: translate the whole region,
clamping `x` into `[0, imageWidth − width]` and `y` into
`[0, imageHeight − height]`; width and height are unchanged. -/
def cropMoveUpdate (imageWidth imageHeight : ℚ) (area : CropArea ℚ) (deltaX deltaY : ℚ) :
    CropArea ℚ :=
  { area with
    x := max 0 (min (imageWidth - area.width) (area.x + deltaX))
    y := max 0 (min (imageHeight - area.height) (area.y + deltaY)) }

/-- The `cropDragMode === 'resize'` branch: per-corner update of the region
(`0` = TL, `1` = TR, `2` = BR, `3` = BL), enforcing the 50-pixel minimum on
the new width and height via `Math.max(50, …)`, then clamping only `x` and
`y` into the image; the new width/height themselves are *not* clamped. -/
def cropResizeUpdate (imageWidth imageHeight : ℚ) (area : CropArea ℚ) (resizeHandle : ℕ)
    (deltaX deltaY : ℚ) : CropArea ℚ :=
  let newArea : CropArea ℚ :=
    match resizeHandle with
    | 0 => ⟨area.x + deltaX, area.y + deltaY, max 50 (area.width - deltaX),
        max 50 (area.height - deltaY)⟩
    | 1 => ⟨area.x, area.y + deltaY, max 50 (area.width + deltaX),
        max 50 (area.height - deltaY)⟩
    | 2 => ⟨area.x, area.y, max 50 (area.width + deltaX), max 50 (area.height + deltaY)⟩
    | 3 => ⟨area.x + deltaX, area.y, max 50 (area.width - deltaX),
        max 50 (area.height + deltaY)⟩
    | _ => area
  ⟨max 0 (min (imageWidth - newArea.width) newArea.x),
    max 0 (min (imageHeight - newArea.height) newArea.y), newArea.width, newArea.height⟩

theorem max_zero_min_le (a b : ℚ) (h : 0 ≤ a) : max 0 (min a b) ≤ a :=
  max_le h (min_le_left a b)

theorem clamp_add_le (W w xc : ℚ) (h : w ≤ W) : max 0 (min (W - w) xc) + w ≤ W := by
  have := max_zero_min_le (W - w) xc (by linarith)
  linarith

/-- C5, amended.  After a Crop-mode *move*, `0 ≤ x`, `0 ≤ y`, width and
height are unchanged, and `x+w ≤ imageWidth` / `y+h ≤ imageHeight` hold
provided the (unchanged) width/height fit in the image.  After a *resize*
(corner handle 0–3), `w ≥ 50`, `h ≥ 50`, `0 ≤ x`, `0 ≤ y`, and
`x+w ≤ imageWidth` / `y+h ≤ imageHeight` hold only when the new width/height
fit in the image: the resized width and height are not clamped to the image,
so a resize can push `x+w` beyond `imageWidth` (see the counterexample), and
the 50-pixel minimum is enforced by resize but not re-checked on move. -/
theorem crop_update_bounds :
    (∀ (imageWidth imageHeight : ℚ) (area : CropArea ℚ) (deltaX deltaY : ℚ),
      0 ≤ (cropMoveUpdate imageWidth imageHeight area deltaX deltaY).x ∧
      0 ≤ (cropMoveUpdate imageWidth imageHeight area deltaX deltaY).y ∧
      (cropMoveUpdate imageWidth imageHeight area deltaX deltaY).width = area.width ∧
      (cropMoveUpdate imageWidth imageHeight area deltaX deltaY).height = area.height ∧
      (area.width ≤ imageWidth →
        (cropMoveUpdate imageWidth imageHeight area deltaX deltaY).x +
          (cropMoveUpdate imageWidth imageHeight area deltaX deltaY).width ≤ imageWidth) ∧
      (area.height ≤ imageHeight →
        (cropMoveUpdate imageWidth imageHeight area deltaX deltaY).y +
          (cropMoveUpdate imageWidth imageHeight area deltaX deltaY).height ≤ imageHeight)) ∧
    (∀ (imageWidth imageHeight : ℚ) (area : CropArea ℚ) (resizeHandle : ℕ)
        (deltaX deltaY : ℚ), resizeHandle < 4 →
      50 ≤ (cropResizeUpdate imageWidth imageHeight area resizeHandle deltaX deltaY).width ∧
      50 ≤ (cropResizeUpdate imageWidth imageHeight area resizeHandle deltaX deltaY).height ∧
      0 ≤ (cropResizeUpdate imageWidth imageHeight area resizeHandle deltaX deltaY).x ∧
      0 ≤ (cropResizeUpdate imageWidth imageHeight area resizeHandle deltaX deltaY).y ∧
      ((cropResizeUpdate imageWidth imageHeight area resizeHandle deltaX deltaY).width ≤
          imageWidth →
        (cropResizeUpdate imageWidth imageHeight area resizeHandle deltaX deltaY).x +
          (cropResizeUpdate imageWidth imageHeight area resizeHandle deltaX deltaY).width ≤
            imageWidth) ∧
      ((cropResizeUpdate imageWidth imageHeight area resizeHandle deltaX deltaY).height ≤
          imageHeight →
        (cropResizeUpdate imageWidth imageHeight area resizeHandle deltaX deltaY).y +
          (cropResizeUpdate imageWidth imageHeight area resizeHandle deltaX deltaY).height ≤
            imageHeight)) := by
  constructor
  · intro imageWidth imageHeight area deltaX deltaY
    refine ⟨le_max_left _ _, le_max_left _ _, rfl, rfl, ?_, ?_⟩
    · intro hw
      have := max_zero_min_le (imageWidth - area.width) (area.x + deltaX) (by linarith)
      show max 0 (min (imageWidth - area.width) (area.x + deltaX)) + area.width ≤ imageWidth
      linarith
    · intro hh
      have := max_zero_min_le (imageHeight - area.height) (area.y + deltaY) (by linarith)
      show max 0 (min (imageHeight - area.height) (area.y + deltaY)) + area.height ≤ imageHeight
      linarith
  · intro imageWidth imageHeight area resizeHandle deltaX deltaY hhandle
    interval_cases resizeHandle <;>
      exact ⟨le_max_left _ _, le_max_left _ _, le_max_left _ _, le_max_left _ _,
        fun hfit => clamp_add_le _ _ _ hfit, fun hfit => clamp_add_le _ _ _ hfit⟩

unseal Rat.mul Rat.inv Rat.add Rat.sub in
/-- C5, counterexample.  On a 100×100 image, dragging the bottom-right
handle of the region (0,0,60,60) by Δx = 100 yields width
`max(50, 60+100) = 160`, and the clamp `x = max(0, min(100−160, 0)) = 0`
leaves `x + w = 160 > 100`: the updated crop region is not contained in the
image, contradicting the claimed invariant `x + w ≤ imageWidth` after every
update. -/
theorem crop_resize_escapes_image :
    (cropResizeUpdate 100 100 ⟨0, 0, 60, 60⟩ 2 100 0).width = 160 ∧
      (cropResizeUpdate 100 100 ⟨0, 0, 60, 60⟩ 2 100 0).x = 0 ∧
      ¬((cropResizeUpdate 100 100 ⟨0, 0, 60, 60⟩ 2 100 0).x +
        (cropResizeUpdate 100 100 ⟨0, 0, 60, 60⟩ 2 100 0).width ≤ 100) := by
  refine ⟨by decide, by decide, by decide⟩

/-- Witness for C5: a move of (10,10,50,50) by Δ = (5,5) in a 100×100 image
stays in bounds, and a top-right resize by Δ = (7,7) keeps width ≥ 50. -/
theorem crop_update_bounds_witness :
    ((⟨10, 10, 50, 50⟩ : CropArea ℚ).width ≤ 100 ∧
      0 ≤ (cropMoveUpdate 100 100 ⟨10, 10, 50, 50⟩ 5 5).x ∧
      (cropMoveUpdate 100 100 ⟨10, 10, 50, 50⟩ 5 5).x +
        (cropMoveUpdate 100 100 ⟨10, 10, 50, 50⟩ 5 5).width ≤ 100) ∧
    ((1 : ℕ) < 4 ∧ 50 ≤ (cropResizeUpdate 100 100 ⟨10, 10, 50, 50⟩ 1 7 7).width) :=
  ⟨⟨by norm_num, (crop_update_bounds.1 100 100 ⟨10, 10, 50, 50⟩ 5 5).1,
      (crop_update_bounds.1 100 100 ⟨10, 10, 50, 50⟩ 5 5).2.2.2.2.1 (by norm_num)⟩,
    ⟨by decide, (crop_update_bounds.2 100 100 ⟨10, 10, 50, 50⟩ 1 7 7 (by decide)).1⟩⟩

/-! ## Keystone hit test (`EditCardForm.tsx`, `handleStart` lines 888–923) -/

/-- `Array.prototype.findIndex`: index of the first element satisfying the
predicate, `-1` when none does. -/
def jsFindIndex {β : Type} (p : β → Bool) : List β → ℤ
  | [] => -1
  | b :: bs => if p b then 0 else if jsFindIndex p bs = -1 then -1 else jsFindIndex p bs + 1

/-- The scaled hit radius of the keystone hit test:
`35 * Math.max(1, Math.min(canvasWidth, canvasHeight) / 500)`. -/
def keystoneHitRadius (canvasWidth canvasHeight : ℚ) : ℚ :=
  35 * max 1 (min canvasWidth canvasHeight / 500)

/-- The per-point test `Math.sqrt((point.x − x)² + (point.y − y)²) <
hitRadius`, embedded decidably through the equivalent squared comparison
(`sqrt s < r ↔ s < r²` for `r > 0`; see `withinHitRadius_iff_sqrt`). -/
def withinHitRadius (px py x y r : ℚ) : Bool :=
  decide ((px - x) * (px - x) + (py - y) * (py - y) < r * r)

theorem withinHitRadius_iff_sqrt (px py x y r : ℚ) (hr : 0 < r) :
    withinHitRadius px py x y r = true ↔
      Real.sqrt (((px : ℝ) - x) ^ 2 + ((py : ℝ) - y) ^ 2) < (r : ℝ) := by
  unfold withinHitRadius
  rw [decide_eq_true_iff]
  rw [Real.sqrt_lt' (by exact_mod_cast hr)]
  rw [show ((px : ℝ) - x) ^ 2 + ((py : ℝ) - y) ^ 2 =
    (((px - x) * (px - x) + (py - y) * (py - y) : ℚ) : ℝ) by push_cast; ring]
  rw [show ((r : ℝ)) ^ 2 = ((r * r : ℚ) : ℝ) by push_cast; ring]
  exact Rat.cast_lt.symm

/-- The keystone branch of `handleStart`: find the first corner whose
distance to the pointer is strictly below the scaled hit radius (`-1` and no
selection when none is). -/
def keystoneHitTest (points : List (ℚ × ℚ)) (x y canvasWidth canvasHeight : ℚ) : ℤ :=
  jsFindIndex (fun p => withinHitRadius p.1 p.2 x y (keystoneHitRadius canvasWidth canvasHeight))
    points

theorem jsFindIndex_nonneg_cases {β : Type} (p : β → Bool) :
    ∀ l : List β, jsFindIndex p l = -1 ∨ 0 ≤ jsFindIndex p l := by
  intro l
  induction l with
  | nil => exact Or.inl rfl
  | cons b bs ih =>
    unfold jsFindIndex
    cases hpb : p b with
    | true =>
      simp only [hpb, if_true]
      exact Or.inr (by norm_num)
    | false =>
      simp only [hpb, Bool.false_eq_true, if_false]
      by_cases hrec : jsFindIndex p bs = -1
      · rw [if_pos hrec]
        exact Or.inl rfl
      · rw [if_neg hrec]
        rcases ih with h | h
        · exact absurd h hrec
        · exact Or.inr (by omega)

theorem jsFindIndex_neg {β : Type} (p : β → Bool) :
    ∀ l : List β, jsFindIndex p l = -1 ↔ ∀ b ∈ l, p b = false := by
  intro l
  induction l with
  | nil => simp [jsFindIndex]
  | cons b bs ih =>
    unfold jsFindIndex
    cases hpb : p b with
    | true =>
      simp only [hpb, if_true]
      constructor
      · intro h
        exact absurd h (by norm_num)
      · intro h
        exact absurd (h b (List.mem_cons_self _ _)) (by simp [hpb])
    | false =>
      simp only [hpb, Bool.false_eq_true, if_false]
      by_cases hrec : jsFindIndex p bs = -1
      · rw [if_pos hrec]
        constructor
        · intro _ c hc
          rcases List.mem_cons.mp hc with rfl | hc'
          · exact hpb
          · exact (ih.mp hrec) c hc'
        · intro _
          rfl
      · rw [if_neg hrec]
        constructor
        · intro habs
          rcases jsFindIndex_nonneg_cases p bs with h' | h'
          · exact absurd h' hrec
          · omega
        · intro hall
          exact absurd (ih.mpr (fun c hc => hall c (List.mem_cons_of_mem _ hc))) hrec

theorem jsFindIndex_found {β : Type} (p : β → Bool) (d : β) :
    ∀ (l : List β) (i : ℕ), jsFindIndex p l = (i : ℤ) →
      i < l.length ∧ p (l.getD i d) = true ∧ ∀ j < i, p (l.getD j d) = false := by
  intro l
  induction l with
  | nil =>
    intro i h
    unfold jsFindIndex at h
    exact absurd h (by omega)
  | cons b bs ih =>
    intro i h
    unfold jsFindIndex at h
    cases hpb : p b with
    | true =>
      rw [hpb, if_pos rfl] at h
      have hi : i = 0 := by omega
      subst hi
      exact ⟨by simp, by simpa using hpb, by omega⟩
    | false =>
      rw [hpb] at h
      simp only [Bool.false_eq_true, if_false] at h
      by_cases hrec : jsFindIndex p bs = -1
      · rw [if_pos hrec] at h
        exact absurd h (by omega)
      · rw [if_neg hrec] at h
        rcases jsFindIndex_nonneg_cases p bs with h' | h'
        · exact absurd h' hrec
        · obtain ⟨k, hk⟩ := Int.eq_ofNat_of_zero_le h'
          rw [hk] at h
          have hik : i = k + 1 := by omega
          subst hik
          obtain ⟨h1, h2, h3⟩ := ih k hk
          refine ⟨by simpa using Nat.succ_lt_succ h1, by simpa using h2, ?_⟩
          intro j hj
          match j with
          | 0 => simpa using hpb
          | j' + 1 =>
            have := h3 j' (by omega)
            simpa using this

/-- C6, amended.  For every Keystone pointer-down, the controller selects
the *first* corner (in TL, TR, BR, BL order) whose distance to the pointer
is strictly within the hit radius `35·max(1, min(canvasWidth,
canvasHeight)/500)` — not necessarily the nearest one (see the
counterexample) — and makes no selection when no corner lies within that
radius. -/
theorem keystoneHitTest_first_within (points : List (ℚ × ℚ)) (x y canvasWidth canvasHeight : ℚ) :
    (keystoneHitTest points x y canvasWidth canvasHeight = -1 ↔
      ∀ q ∈ points, ¬ Real.sqrt (((q.1 : ℝ) - x) ^ 2 + ((q.2 : ℝ) - y) ^ 2) <
        ((keystoneHitRadius canvasWidth canvasHeight : ℚ) : ℝ)) ∧
    (∀ i : ℕ, keystoneHitTest points x y canvasWidth canvasHeight = (i : ℤ) →
      i < points.length ∧
      Real.sqrt ((((points.getD i (0, 0)).1 : ℝ) - x) ^ 2 +
          (((points.getD i (0, 0)).2 : ℝ) - y) ^ 2) <
        ((keystoneHitRadius canvasWidth canvasHeight : ℚ) : ℝ) ∧
      ∀ j < i, ¬ Real.sqrt ((((points.getD j (0, 0)).1 : ℝ) - x) ^ 2 +
          (((points.getD j (0, 0)).2 : ℝ) - y) ^ 2) <
        ((keystoneHitRadius canvasWidth canvasHeight : ℚ) : ℝ)) := by
  have hrpos : 0 < keystoneHitRadius canvasWidth canvasHeight := by
    unfold keystoneHitRadius
    have : (1 : ℚ) ≤ max 1 (min canvasWidth canvasHeight / 500) := le_max_left _ _
    linarith
  constructor
  · unfold keystoneHitTest
    rw [jsFindIndex_neg]
    constructor
    · intro h q hq
      rw [← withinHitRadius_iff_sqrt _ _ _ _ _ hrpos]
      simp [h q hq]
    · intro h q hq
      rw [← Bool.not_eq_true]
      rw [withinHitRadius_iff_sqrt _ _ _ _ _ hrpos]
      exact h q hq
  · intro i hi
    unfold keystoneHitTest at hi
    obtain ⟨h1, h2, h3⟩ := jsFindIndex_found _ ((0 : ℚ), (0 : ℚ)) points i hi
    refine ⟨h1, ?_, ?_⟩
    · rw [← withinHitRadius_iff_sqrt _ _ _ _ _ hrpos]
      simpa using h2
    · intro j hj
      rw [← withinHitRadius_iff_sqrt _ _ _ _ _ hrpos]
      simp only [Bool.not_eq_true]
      exact h3 j hj

unseal Rat.mul Rat.inv Rat.add Rat.sub in
/-- C6, counterexample.  Corners `[(0,0), (20,0), (500,500), (0,500)]` on a
500×500 canvas (hit radius 35), pointer at (28, 0): the code selects index 0
(`findIndex` returns the first point within the radius), yet corner 1 at
distance 8 is strictly nearer than corner 0 at distance 28 and also within
the radius — the nearest corner is not the one selected. -/
theorem keystoneHitTest_not_nearest :
    keystoneHitTest [((0 : ℚ), 0), (20, 0), (500, 500), (0, 500)] 28 0 500 500 = 0 ∧
      Real.sqrt (((20 : ℝ) - 28) ^ 2 + ((0 : ℝ) - 0) ^ 2) <
        Real.sqrt (((0 : ℝ) - 28) ^ 2 + ((0 : ℝ) - 0) ^ 2) ∧
      Real.sqrt (((20 : ℝ) - 28) ^ 2 + ((0 : ℝ) - 0) ^ 2) < 35 := by
  refine ⟨by decide, ?_, ?_⟩
  · apply Real.sqrt_lt_sqrt (by norm_num)
    norm_num
  · rw [Real.sqrt_lt' (by norm_num)]
    norm_num

unseal Rat.mul Rat.inv Rat.add Rat.sub in
/-- Witness for C6: the found-case of the theorem applied to the concrete
counterexample configuration, and the none-case at a far-away pointer. -/
theorem keystoneHitTest_first_within_witness :
    (keystoneHitTest [((0 : ℚ), 0), (20, 0), (500, 500), (0, 500)] 28 0 500 500 = ((0 : ℕ) : ℤ) ∧
      (0 : ℕ) < ([((0 : ℚ), 0), (20, 0), (500, 500), (0, 500)] : List (ℚ × ℚ)).length ∧
      Real.sqrt ((((([((0 : ℚ), 0), (20, 0), (500, 500), (0, 500)] :
              List (ℚ × ℚ)).getD 0 (0, 0)).1 : ℝ) - ((28 : ℚ) : ℝ)) ^ 2 +
          (((([((0 : ℚ), 0), (20, 0), (500, 500), (0, 500)] :
              List (ℚ × ℚ)).getD 0 (0, 0)).2 : ℝ) - ((0 : ℚ) : ℝ)) ^ 2) <
        ((keystoneHitRadius 500 500 : ℚ) : ℝ)) ∧
      (keystoneHitTest [((0 : ℚ), 0), (20, 0), (500, 500), (0, 500)] 1000 1000 500 500 = -1 ∧
        ∀ q ∈ ([((0 : ℚ), 0), (20, 0), (500, 500), (0, 500)] : List (ℚ × ℚ)),
          ¬ Real.sqrt (((q.1 : ℝ) - ((1000 : ℚ) : ℝ)) ^ 2 + ((q.2 : ℝ) - ((1000 : ℚ) : ℝ)) ^ 2) <
            ((keystoneHitRadius 500 500 : ℚ) : ℝ)) := by
  refine ⟨⟨by decide, ?_, ?_⟩, by decide, ?_⟩
  · exact ((keystoneHitTest_first_within [((0 : ℚ), 0), (20, 0), (500, 500), (0, 500)]
      28 0 500 500).2 0 (by decide)).1
  · exact ((keystoneHitTest_first_within [((0 : ℚ), 0), (20, 0), (500, 500), (0, 500)]
      28 0 500 500).2 0 (by decide)).2.1
  · exact (keystoneHitTest_first_within [((0 : ℚ), 0), (20, 0), (500, 500), (0, 500)]
      1000 1000 500 500).1.mp (by decide)

end CardScanner
